import Mathlib

/-!
Verification development for the translation-memory-augmented transformer decoder
(`fairseq/fairseq/models/transformer/transformer_decoder_with_TM_7_attn_2.py`).

The development shallowly embeds the decoding-time fusion pipeline of
`TransformerDecoderBaseWithTM.forward`: per-exemplar attention over a
translation-memory (TM) bank, the generate/copy gate, the feed-forward
refinement, the vocabulary softmax, the copy-mass scatter-add, and the six
ensemble-combination branches.  Tensors are embedded as functions over `Fin`
index types with real-valued entries; the learned parameters of the sub-modules
appear as fields of a `Model` structure.  External torch modules that are not
part of the repository source (the multi-head attention internals, layer
normalization, dropout, the activation function) are abstracted as function
fields of the model; their contracts follow the specification.
-/

namespace TMDecoder

/-- The fixed additive floor `1e-12` added before each logarithm. -/
noncomputable def eps : ℝ := 1 / 10 ^ 12

/-- `F.softmax` along a finite axis of size `n`: exponentiate and normalize. -/
noncomputable def softmax {n : ℕ} (z : Fin n → ℝ) : Fin n → ℝ :=
  fun i => Real.exp (z i) / ∑ j, Real.exp (z j)

/-- Modelled from the spec: the key-padding masking inside
`fairseq.modules.MultiheadAttention` (the module itself is not under `src/`).
Positions flagged by the padding mask are set to `-inf` before the softmax, so
after the softmax they carry exactly zero weight and the remaining positions
are normalized among themselves (spec section 4.1). -/
noncomputable def maskedSoftmax {n : ℕ} (z : Fin n → ℝ) (mask : Fin n → Bool) : Fin n → ℝ :=
  fun i =>
    if mask i = true then 0
    else Real.exp (z i) / ∑ j ∈ Finset.univ.filter (fun j => mask j = false), Real.exp (z j)

/-- A linear layer `nn.Linear` whose input is the channel-wise concatenation of
`k` blocks of `n` channels each, with the weight matrix viewed in blocks. -/
noncomputable def linearBlocks {m k n : ℕ} (W : Fin m → Fin k → Fin n → ℝ)
    (bias : Fin m → ℝ) (v : Fin k → Fin n → ℝ) : Fin m → ℝ :=
  fun o => (∑ blk, ∑ j, W o blk j * v blk j) + bias o

/-- `Tensor.scatter_add_` along the vocabulary axis: the value at vocabulary
index `v` accumulates, on top of `base v`, every weight `w j` whose token
identity `ids j` equals `v`.  Accumulation is additive, never an overwrite. -/
noncomputable def scatterAdd {V L : ℕ} (base : Fin V → ℝ) (ids : Fin L → ℕ)
    (w : Fin L → ℝ) : Fin V → ℝ :=
  fun v => base v + ∑ j ∈ Finset.univ.filter (fun j => ids j = (v : ℕ)), w j

/-- Size of every chunk but possibly the last in `Tensor.chunk n`
(`torch.chunk` uses ceiling division). -/
def chunkSize (L n : ℕ) : ℕ := (L + n - 1) / n

/-- Number of chunks actually returned by `Tensor.chunk n` on an axis of
length `L`; this can be smaller than the requested `n`. -/
def numChunks (L n : ℕ) : ℕ := (L + chunkSize L n - 1) / chunkSize L n

/-- Length of the `i`-th chunk returned by `Tensor.chunk n`. -/
def chunkLen (L n i : ℕ) : ℕ := min (chunkSize L n) (L - i * chunkSize L n)

/-- Absolute position (in the concatenated axis) of element `j` of chunk `i`. -/
def chunkPos (L n i : ℕ) (j : Fin (chunkLen L n i)) : Fin L :=
  ⟨i * chunkSize L n + j, by
    have h1 : (j : ℕ) < L - i * chunkSize L n :=
      lt_of_lt_of_le j.isLt (min_le_right _ _)
    omega⟩

/-- The forward pass indexes chunks `0 … TM_num - 1`, so it completes without a
shape error precisely when `Tensor.chunk` returns at least `TM_num` chunks
(and `TM_num > 0`, since `torch.chunk` rejects a non-positive chunk count). -/
def chunksOK (L n : ℕ) : Prop := 0 < n ∧ n ≤ numChunks L n

instance (L n : ℕ) : Decidable (chunksOK L n) :=
  inferInstanceAs (Decidable (0 < n ∧ n ≤ numChunks L n))

/-- Learned parameters and abstracted sub-modules of
`TransformerDecoderBaseWithTM`, for channel width `C`, feed-forward width
`Cff`, vocabulary size `V`, learnable-ensemble hidden width `H` and exemplar
count `N` (= `self.TM_num`, which sizes `learnable_p_fc2`).  Torch modules
whose internals live outside `src/` (`MultiheadAttention` projections,
`LayerNorm`, dropout, the activation) are abstract functions. -/
structure Model (C Cff V H N : ℕ) where
  attnScore : (Fin C → ℝ) → (Fin C → ℝ) → ℝ
  attnValue : (Fin C → ℝ) → Fin C → ℝ
  attnOutBias : Fin C → ℝ
  alignmentLayerNorm : (Fin C → ℝ) → Fin C → ℝ
  diverterW : Fin 2 → Fin 2 → Fin C → ℝ
  diverterB : Fin 2 → ℝ
  ffW1 : Fin Cff → Fin C → ℝ
  ffB1 : Fin Cff → ℝ
  ffW2 : Fin C → Fin Cff → ℝ
  ffB2 : Fin C → ℝ
  ffLayerNorm : (Fin C → ℝ) → Fin C → ℝ
  activation : ℝ → ℝ
  dropout : ℝ → ℝ
  activationDropout : ℝ → ℝ
  normalizeBefore : Bool
  outW : Fin V → Fin C → ℝ
  lpFc1Wuns : Fin H → Fin (N + 1) → Fin C → ℝ
  lpFc1Buns : Fin H → ℝ
  lpFc2Wuns : Fin N → Fin H → ℝ
  lpFc2Buns : Fin N → ℝ
  lpAttnScore : (Fin C → ℝ) → (Fin C → ℝ) → ℝ
  lpAttnValue : (Fin C → ℝ) → Fin C → ℝ
  lpAttnOutBias : Fin C → ℝ
  lpFc1Wlin : Fin H → Fin 2 → Fin C → ℝ
  lpFc1Blin : Fin H → ℝ
  lpFc2Wlin : Fin H → ℝ
  lpFc2Blin : ℝ
  lpFc1Wa2 : Fin H → Fin 3 → Fin C → ℝ
  lpFc1Ba2 : Fin H → ℝ
  lpFc2Wa2 : Fin H → ℝ
  lpFc2Ba2 : ℝ

/-- The `encoder_out` dictionary entries consumed by `forward`: the
exemplar-concatenated memory bank, its padding mask, the exemplar token
identities (`TMs`), and the optional per-exemplar similarity scores. -/
structure EncoderOut (C B : ℕ) where
  memLen : ℕ
  memory : Fin memLen → Fin B → Fin C → ℝ
  memPadMask : Fin B → Fin memLen → Bool
  TMs : Fin memLen → Fin B → ℕ
  TMsSimilarity : Option (Fin B → ℕ → ℝ)

/-- The three configuration flags read in `forward` (`self.TM_num` is the
model parameter `N`; construction sizes the learnable networks with it). -/
structure TMConfig where
  with_TM_ensemble : Bool
  with_TM_learnable_p : Bool
  with_TM_learnable_p_model : Option String

variable {C Cff V H N T B : ℕ}

/-- Alignment weights of `self.alignment_layer` for one query vector over one
memory segment: raw scores masked by the key padding mask, then softmax
(the weight matrix returned with `need_weights=True`). -/
noncomputable def alignWeights (M : Model C Cff V H N) {L : ℕ} (q : Fin C → ℝ)
    (mem : Fin L → Fin C → ℝ) (mask : Fin L → Bool) : Fin L → ℝ :=
  maskedSoftmax (fun j => M.attnScore q (mem j)) mask

/-- Attended output of `self.alignment_layer`: alignment-weighted sum of the
projected memory values plus the output-projection bias. -/
noncomputable def attnOut (M : Model C Cff V H N) {L : ℕ} (q : Fin C → ℝ)
    (mem : Fin L → Fin C → ℝ) (mask : Fin L → Bool) : Fin C → ℝ :=
  fun c => (∑ j, alignWeights M q mem mask j * M.attnValue (mem j) c) + M.attnOutBias c

/-- The generate/copy gate: `F.softmax(self.diverter(torch.cat([x,
attn_normalized], -1)), -1)`.  Component 0 is `gen_gate`, component 1 is
`copy_gate` (the two halves of `gates.chunk(2, dim=-1)`). -/
noncomputable def exGates (M : Model C Cff V H N) {L : ℕ} (q : Fin C → ℝ)
    (mem : Fin L → Fin C → ℝ) (mask : Fin L → Bool) : Fin 2 → ℝ :=
  softmax (linearBlocks M.diverterW M.diverterB
    (fun blk => if blk.val = 0 then q else M.alignmentLayerNorm (attnOut M q mem mask)))

/-- The residual feed-forward refinement applied to
`alignment_layer_norm(x + attn)`: optional pre-norm, expand, activation,
activation-dropout, contract, dropout, residual add, optional post-norm. -/
noncomputable def ffRefine (M : Model C Cff V H N) (v : Fin C → ℝ) : Fin C → ℝ :=
  let v1 := if M.normalizeBefore then M.ffLayerNorm v else v
  let hidden := fun i => M.activationDropout (M.activation ((∑ j, M.ffW1 i j * v1 j) + M.ffB1 i))
  let v3 := fun c => M.dropout ((∑ j, M.ffW2 c j * hidden j) + M.ffB2 c) + v c
  if M.normalizeBefore then v3 else M.ffLayerNorm v3

/-- The refined per-position feature fed to the vocabulary projection. -/
noncomputable def exFeature (M : Model C Cff V H N) {L : ℕ} (q : Fin C → ℝ)
    (mem : Fin L → Fin C → ℝ) (mask : Fin L → Bool) : Fin C → ℝ :=
  ffRefine M (M.alignmentLayerNorm (fun c => q c + attnOut M q mem mask c))

/-- `F.softmax(self.output_layer(clone_x), -1)`: the vocabulary distribution
of the generate branch (`output_projection` is bias-free). -/
noncomputable def exVocab (M : Model C Cff V H N) {L : ℕ} (q : Fin C → ℝ)
    (mem : Fin L → Fin C → ℝ) (mask : Fin L → Bool) : Fin V → ℝ :=
  softmax (fun v => ∑ c, M.outW v c * exFeature M q mem mask c)

/-- The generate-branch probability contribution `gen_gate * softmax(logits)`. -/
noncomputable def exGenProbs (M : Model C Cff V H N) {L : ℕ} (q : Fin C → ℝ)
    (mem : Fin L → Fin C → ℝ) (mask : Fin L → Bool) : Fin V → ℝ :=
  fun v => exGates M q mem mask 0 * exVocab M q mem mask v

/-- One position's total probability vector over the vocabulary: the generate
contribution with the copy mass `copy_gate * alignment_weight` scatter-added
at the copied token identities. -/
noncomputable def exProbs (M : Model C Cff V H N) {L : ℕ} (q : Fin C → ℝ)
    (mem : Fin L → Fin C → ℝ) (mask : Fin L → Bool) (ids : Fin L → ℕ) : Fin V → ℝ :=
  scatterAdd (exGenProbs M q mem mask) ids
    (fun j => exGates M q mem mask 1 * alignWeights M q mem mask j)

/-- The shared per-exemplar pipeline of `forward` applied at every
(target position, batch element): attention over the memory segment, gate,
feed-forward refinement, vocabulary softmax, copy-mass scatter. -/
noncomputable def perExemplarProbs (M : Model C Cff V H N) {L : ℕ}
    (x : Fin T → Fin B → Fin C → ℝ) (mem : Fin L → Fin B → Fin C → ℝ)
    (mask : Fin B → Fin L → Bool) (ids : Fin L → Fin B → ℕ) :
    Fin T → Fin B → Fin V → ℝ :=
  fun t b =>
    exProbs M (x t b) (fun j => mem j b) (mask b) (fun j => ids j b)

/-- `x.transpose(0, 1)`: from batch-major (`B x T x C`, the output of
`extract_features`) to time-major (`T x B x C`). -/
def transposeBT (x : Fin B → Fin T → Fin C → ℝ) : Fin T → Fin B → Fin C → ℝ :=
  fun t b => x b t

/-- Chunk `i` of `memory_encoder_padding_mask.chunk(TM_num, dim=1)`. -/
def chunkMask (eo : EncoderOut C B) (n i : ℕ) :
    Fin B → Fin (chunkLen eo.memLen n i) → Bool :=
  fun b j => eo.memPadMask b (chunkPos eo.memLen n i j)

/-- The attended output of `self.alignment_layer` on exemplar chunk `i`
(the `attn` entry of `attn_all`). -/
noncomputable def chunkAttn (M : Model C Cff V H N) (xT : Fin T → Fin B → Fin C → ℝ)
    (eo : EncoderOut C B) (n i : ℕ) : Fin T → Fin B → Fin C → ℝ :=
  fun t b =>
    attnOut M (xT t b) (fun j => eo.memory (chunkPos eo.memLen n i j) b)
      (chunkMask eo n i b)

/-- `attn_normalized` for exemplar chunk `i`:
`self.alignment_layer_norm(attn)`. -/
noncomputable def chunkAttnNorm (M : Model C Cff V H N) (xT : Fin T → Fin B → Fin C → ℝ)
    (eo : EncoderOut C B) (n i : ℕ) : Fin T → Fin B → Fin C → ℝ :=
  fun t b => M.alignmentLayerNorm (chunkAttn M xT eo n i t b)

/-- The independently computed probability tensor of exemplar `i`: the shared
per-exemplar pipeline run on chunk `i` of the memory, padding mask and token
identities (`probs` just before the ensemble weighting). -/
noncomputable def exemplarProb (M : Model C Cff V H N) (xT : Fin T → Fin B → Fin C → ℝ)
    (eo : EncoderOut C B) (n i : ℕ) : Fin T → Fin B → Fin V → ℝ :=
  perExemplarProbs M xT (fun j b => eo.memory (chunkPos eo.memLen n i j) b)
    (chunkMask eo n i) (fun j b => eo.TMs (chunkPos eo.memLen n i j) b)

/-- The common tail of every weighted ensemble branch: the loop over
`range(TM_num)` appends the weighted per-exemplar probabilities, then
`torch.stack(..., 0)`, `torch.sum(..., 0)` and `torch.log(... + 1e-12)`. -/
noncomputable def combineWeightedProbs (M : Model C Cff V H N)
    (xT : Fin T → Fin B → Fin C → ℝ) (eo : EncoderOut C B)
    (w : Fin T → Fin B → Fin N → ℝ) : Fin B → Fin T → Fin V → ℝ :=
  fun b t v =>
    Real.log
      (((List.finRange N).map
          (fun i => w t b i * exemplarProb M xT eo N i.val t b v)).sum + eps)

/-- Ensemble weights of the `unscalable_linear` strategy: softmax over the
`TM_num` outputs of `learnable_p_fc2(dropout(act(learnable_p_fc1(cat([x] +
attn_all)))))`. -/
noncomputable def wUnscalable (M : Model C Cff V H N) (xT : Fin T → Fin B → Fin C → ℝ)
    (eo : EncoderOut C B) : Fin T → Fin B → Fin N → ℝ :=
  fun t b =>
    softmax (fun i =>
      M.dropout
        ((∑ hI, M.lpFc2Wuns i hI *
            M.activationDropout (M.activation
              (linearBlocks M.lpFc1Wuns M.lpFc1Buns
                (Fin.cases (xT t b) (fun e => chunkAttn M xT eo N e.val t b)) hI))) +
          M.lpFc2Buns i))

/-- Ensemble weights of the `attention` / `attention_large` strategies: the
softmax attention distribution of `self.learnable_p_attn` with the decoder
state as query and the per-exemplar normalized attended outputs as keys
(no key padding mask, so a plain softmax over the `TM_num` keys). -/
noncomputable def wAttention (M : Model C Cff V H N) (xT : Fin T → Fin B → Fin C → ℝ)
    (eo : EncoderOut C B) : Fin T → Fin B → Fin N → ℝ :=
  fun t b =>
    softmax (fun i => M.lpAttnScore (xT t b) (chunkAttnNorm M xT eo N i.val t b))

/-- Ensemble weights of the `linear` / `linear_large` strategies: per-exemplar
scalar `dropout(learnable_p_fc2(dropout(act(learnable_p_fc1(cat([x,
attn_normalized]))))))`, concatenated over exemplars and softmax-normalized. -/
noncomputable def wLinear (M : Model C Cff V H N) (xT : Fin T → Fin B → Fin C → ℝ)
    (eo : EncoderOut C B) : Fin T → Fin B → Fin N → ℝ :=
  fun t b =>
    softmax (fun i =>
      M.dropout
        ((∑ hI, M.lpFc2Wlin hI *
            M.activationDropout (M.activation
              (linearBlocks M.lpFc1Wlin M.lpFc1Blin
                (fun blk => if blk.val = 0 then xT t b
                  else chunkAttnNorm M xT eo N i.val t b) hI))) +
          M.lpFc2Blin))

/-- The pooled attended output of `self.learnable_p_attn` used by the
`attention_2` strategy (query = decoder state, keys/values = the per-exemplar
normalized attended outputs). -/
noncomputable def lpPooledAttn (M : Model C Cff V H N) (xT : Fin T → Fin B → Fin C → ℝ)
    (eo : EncoderOut C B) : Fin T → Fin B → Fin C → ℝ :=
  fun t b c =>
    (∑ i : Fin N,
        softmax (fun e : Fin N => M.lpAttnScore (xT t b) (chunkAttnNorm M xT eo N e.val t b)) i *
          M.lpAttnValue (chunkAttnNorm M xT eo N i.val t b) c) +
      M.lpAttnOutBias c

/-- Ensemble weights of the `attention_2` strategy: per-exemplar scalar from
`learnable_p_fc2(dropout(act(learnable_p_fc1(cat([x, attn_normalized,
pooled_attention])))))`, concatenated over exemplars and softmax-normalized. -/
noncomputable def wAttention2 (M : Model C Cff V H N) (xT : Fin T → Fin B → Fin C → ℝ)
    (eo : EncoderOut C B) : Fin T → Fin B → Fin N → ℝ :=
  fun t b =>
    softmax (fun i =>
      M.dropout
        ((∑ hI, M.lpFc2Wa2 hI *
            M.activationDropout (M.activation
              (linearBlocks M.lpFc1Wa2 M.lpFc1Ba2
                (fun blk =>
                  if blk.val = 0 then xT t b
                  else if blk.val = 1 then chunkAttnNorm M xT eo N i.val t b
                  else lpPooledAttn M xT eo t b) hI))) +
          M.lpFc2Ba2))

/-- The `with_TM_ensemble = False` branch: one pass of the shared pipeline
over the whole concatenated memory bank, producing the probability tensor
before the logarithm. -/
noncomputable def noEnsembleProbs (M : Model C Cff V H N)
    (x : Fin B → Fin T → Fin C → ℝ) (eo : EncoderOut C B) :
    Fin T → Fin B → Fin V → ℝ :=
  perExemplarProbs M (transposeBT x) eo.memory eo.memPadMask eo.TMs

/-- The `with_TM_ensemble = False` branch output:
`torch.log(probs + 1e-12).transpose(0, 1)`. -/
noncomputable def noEnsembleForward (M : Model C Cff V H N)
    (x : Fin B → Fin T → Fin C → ℝ) (eo : EncoderOut C B) :
    Fin B → Fin T → Fin V → ℝ :=
  fun b t v => Real.log (noEnsembleProbs M x eo t b v + eps)

/-- The similarity-weighted ensemble branch: each exemplar's probability
tensor is scaled by its raw upstream similarity score, summed, and
log-transformed; `none` models the shape error raised when `Tensor.chunk`
yields fewer than `TM_num` segments. -/
noncomputable def ensembleSimForward (M : Model C Cff V H N)
    (x : Fin B → Fin T → Fin C → ℝ) (eo : EncoderOut C B) (s : Fin B → ℕ → ℝ) :
    Option (Fin B → Fin T → Fin V → ℝ) :=
  if chunksOK eo.memLen N then
    some (combineWeightedProbs M (transposeBT x) eo (fun _ b i => s b i.val))
  else none

/-- The `unscalable_linear` learned-weighting branch. -/
noncomputable def ensembleUnscalableForward (M : Model C Cff V H N)
    (x : Fin B → Fin T → Fin C → ℝ) (eo : EncoderOut C B) :
    Option (Fin B → Fin T → Fin V → ℝ) :=
  if chunksOK eo.memLen N then
    some (combineWeightedProbs M (transposeBT x) eo (wUnscalable M (transposeBT x) eo))
  else none

/-- The `attention` / `attention_large` learned-weighting branch. -/
noncomputable def ensembleAttentionForward (M : Model C Cff V H N)
    (x : Fin B → Fin T → Fin C → ℝ) (eo : EncoderOut C B) :
    Option (Fin B → Fin T → Fin V → ℝ) :=
  if chunksOK eo.memLen N then
    some (combineWeightedProbs M (transposeBT x) eo (wAttention M (transposeBT x) eo))
  else none

/-- The `linear` / `linear_large` learned-weighting branch. -/
noncomputable def ensembleLinearForward (M : Model C Cff V H N)
    (x : Fin B → Fin T → Fin C → ℝ) (eo : EncoderOut C B) :
    Option (Fin B → Fin T → Fin V → ℝ) :=
  if chunksOK eo.memLen N then
    some (combineWeightedProbs M (transposeBT x) eo (wLinear M (transposeBT x) eo))
  else none

/-- The `attention_2` learned-weighting branch. -/
noncomputable def ensembleAttention2Forward (M : Model C Cff V H N)
    (x : Fin B → Fin T → Fin C → ℝ) (eo : EncoderOut C B) :
    Option (Fin B → Fin T → Fin V → ℝ) :=
  if chunksOK eo.memLen N then
    some (combineWeightedProbs M (transposeBT x) eo (wAttention2 M (transposeBT x) eo))
  else none

/-- The final `else` branch (ensemble without similarity scores or learned
weights): the unweighted per-exemplar probability tensors are stacked on a new
trailing axis and combined by `torch.mean` over it, then `torch.log(mean +
1e-12)` and the final transpose. -/
noncomputable def plainEnsembleForward (M : Model C Cff V H N)
    (x : Fin B → Fin T → Fin C → ℝ) (eo : EncoderOut C B) :
    Option (Fin B → Fin T → Fin V → ℝ) :=
  if chunksOK eo.memLen N then
    some (fun b t v =>
      Real.log
        (((List.finRange N).map
            (fun i => exemplarProb M (transposeBT x) eo N i.val t b v)).sum / (N : ℝ) + eps))
  else none

/-- `TransformerDecoderBaseWithTM.forward` after `extract_features`: the
branch chain selecting one of the six fusion strategies, in source order.
The `featuresOnly` argument mirrors `features_only`, whose use is commented
out in the source.  `x` is the extracted feature tensor (`B x T x C`). -/
noncomputable def forwardTM (M : Model C Cff V H N) (cfg : TMConfig)
    (featuresOnly : Bool) (x : Fin B → Fin T → Fin C → ℝ) (eo : EncoderOut C B) :
    Option (Fin B → Fin T → Fin V → ℝ) :=
  if cfg.with_TM_ensemble = false then some (noEnsembleForward M x eo)
  else if h : eo.TMsSimilarity.isSome then
    ensembleSimForward M x eo (eo.TMsSimilarity.get h)
  else if cfg.with_TM_learnable_p = true ∧
      cfg.with_TM_learnable_p_model = some "unscalable_linear" then
    ensembleUnscalableForward M x eo
  else if cfg.with_TM_learnable_p = true ∧
      (cfg.with_TM_learnable_p_model = some "attention" ∨
       cfg.with_TM_learnable_p_model = some "attention_large") then
    ensembleAttentionForward M x eo
  else if cfg.with_TM_learnable_p = true ∧
      (cfg.with_TM_learnable_p_model = some "linear" ∨
       cfg.with_TM_learnable_p_model = some "linear_large") then
    ensembleLinearForward M x eo
  else if cfg.with_TM_learnable_p = true ∧
      cfg.with_TM_learnable_p_model = some "attention_2" then
    ensembleAttention2Forward M x eo
  else plainEnsembleForward M x eo

/-- `get_normalized_probs_scriptable`: returns `net_output[0].contiguous()`
(making a tensor contiguous does not change its values), ignoring both
`log_probs` and `sample`. -/
def get_normalized_probs_scriptable {α β γ : Type} (netOutput : α × β)
    (logProbs : Bool) (sample : Option γ) : α :=
  netOutput.1

/-- `get_normalized_probs`: delegates to the scriptable helper. -/
def get_normalized_probs {α β γ : Type} (netOutput : α × β)
    (logProbs : Bool) (sample : Option γ) : α :=
  get_normalized_probs_scriptable netOutput logProbs sample

/-- A softmax over a nonempty axis sums to one. -/
theorem softmax_sum_one {n : ℕ} (hn : 0 < n) (z : Fin n → ℝ) :
    ∑ i, softmax z i = 1 := by
  unfold softmax
  have : Nonempty (Fin n) := Fin.pos_iff_nonempty.mp hn
  have hS : 0 < ∑ j, Real.exp (z j) :=
    Finset.sum_pos (fun i _ => Real.exp_pos _) Finset.univ_nonempty
  rw [← Finset.sum_div]
  exact div_self hS.ne'

/-- A masked softmax with at least one unmasked position sums to one. -/
theorem maskedSoftmax_sum_one {n : ℕ} (z : Fin n → ℝ) (mask : Fin n → Bool)
    (h : ∃ j, mask j = false) : ∑ i, maskedSoftmax z mask i = 1 := by
  obtain ⟨j0, hj0⟩ := h
  have hS : 0 < ∑ j ∈ Finset.univ.filter (fun j => mask j = false), Real.exp (z j) :=
    Finset.sum_pos (fun i _ => Real.exp_pos _)
      ⟨j0, Finset.mem_filter.mpr ⟨Finset.mem_univ _, hj0⟩⟩
  calc ∑ i, maskedSoftmax z mask i
      = ∑ i, (if mask i = false then
          Real.exp (z i) /
            ∑ j ∈ Finset.univ.filter (fun j => mask j = false), Real.exp (z j)
          else 0) := by
        refine Finset.sum_congr rfl (fun i _ => ?_)
        unfold maskedSoftmax
        cases hmi : mask i <;> simp [hmi]
    _ = ∑ i ∈ Finset.univ.filter (fun i => mask i = false),
          Real.exp (z i) /
            ∑ j ∈ Finset.univ.filter (fun j => mask j = false), Real.exp (z j) :=
        (Finset.sum_filter _ _).symm
    _ = 1 := by rw [← Finset.sum_div]; exact div_self hS.ne'

/-- The masked softmax is exactly zero at every masked position. -/
theorem maskedSoftmax_eq_zero {n : ℕ} (z : Fin n → ℝ) (mask : Fin n → Bool)
    (j : Fin n) (h : mask j = true) : maskedSoftmax z mask j = 0 := by
  unfold maskedSoftmax
  rw [if_pos h]

/-- Scatter-add conserves mass: when every token identity is a valid
vocabulary index, the total of the scattered tensor is the total of the base
tensor plus the total of the scattered weights. -/
theorem scatterAdd_sum {V L : ℕ} (base : Fin V → ℝ) (ids : Fin L → ℕ)
    (w : Fin L → ℝ) (h : ∀ j, ids j < V) :
    ∑ v, scatterAdd base ids w v = (∑ v, base v) + ∑ j, w j := by
  unfold scatterAdd
  rw [Finset.sum_add_distrib]
  congr 1
  calc ∑ v : Fin V, ∑ j ∈ Finset.univ.filter (fun j => ids j = (v : ℕ)), w j
      = ∑ v : Fin V, ∑ j : Fin L, if ids j = (v : ℕ) then w j else 0 := by
        refine Finset.sum_congr rfl (fun v _ => ?_)
        rw [Finset.sum_filter]
    _ = ∑ j : Fin L, ∑ v : Fin V, if ids j = (v : ℕ) then w j else 0 :=
        Finset.sum_comm
    _ = ∑ j, w j := by
        refine Finset.sum_congr rfl (fun j _ => ?_)
        rw [Finset.sum_eq_single (⟨ids j, h j⟩ : Fin V)]
        · simp
        · intro v _ hv
          rw [if_neg]
          intro he
          exact hv (Fin.ext he.symm)
        · intro habs
          exact absurd (Finset.mem_univ _) habs

/-- The generate and copy gates always sum to one (they are a 2-way softmax). -/
theorem exGates_sum_one (M : Model C Cff V H N) {L : ℕ} (q : Fin C → ℝ)
    (mem : Fin L → Fin C → ℝ) (mask : Fin L → Bool) :
    exGates M q mem mask 0 + exGates M q mem mask 1 = 1 := by
  have h := softmax_sum_one (by omega : 0 < 2)
    (linearBlocks M.diverterW M.diverterB
      (fun blk => if blk.val = 0 then q else M.alignmentLayerNorm (attnOut M q mem mask)))
  rw [Fin.sum_univ_two] at h
  exact h

/-- One position's total probability vector sums to one provided the memory
has an unmasked position and all copied token identities are valid. -/
theorem exProbs_sum_one (M : Model C Cff V H N) {L : ℕ} (q : Fin C → ℝ)
    (mem : Fin L → Fin C → ℝ) (mask : Fin L → Bool) (ids : Fin L → ℕ)
    (hmask : ∃ j, mask j = false) (hids : ∀ j, ids j < V) :
    ∑ v, exProbs M q mem mask ids v = 1 := by
  have hV : 0 < V := by
    obtain ⟨j0, _⟩ := hmask
    exact Nat.lt_of_le_of_lt (Nat.zero_le _) (hids j0)
  unfold exProbs
  rw [scatterAdd_sum _ _ _ hids]
  unfold exGenProbs
  rw [← Finset.mul_sum, ← Finset.mul_sum]
  unfold exVocab
  rw [softmax_sum_one hV]
  unfold alignWeights
  rw [maskedSoftmax_sum_one _ _ hmask, mul_one, mul_one]
  exact exGates_sum_one M q mem mask

/-- Sum over `Fin n` as the sum of the mapped `List.finRange`, the shape the
loop-built ensemble combinations take. -/
theorem listFinRangeSum {n : ℕ} (f : Fin n → ℝ) :
    ((List.finRange n).map f).sum = ∑ i, f i :=
  (Fin.sum_univ_def f).symm

/-- Evenly divisible positive lengths always chunk into exactly `n` segments. -/
theorem chunksOK_of_dvd {L n : ℕ} (hn : 0 < n) (hL : 0 < L) (h : n ∣ L) :
    chunksOK L n := by
  obtain ⟨k, rfl⟩ := h
  have hk : 0 < k := by
    rcases Nat.eq_zero_or_pos k with hk0 | hk0
    · rw [hk0, Nat.mul_zero] at hL; exact absurd hL (lt_irrefl 0)
    · exact hk0
  have hcs : chunkSize (n * k) n = k := by
    unfold chunkSize
    have he : n * k + n - 1 = n * k + (n - 1) := by omega
    rw [he, Nat.mul_add_div hn, Nat.div_eq_of_lt (by omega)]
    omega
  refine ⟨hn, ?_⟩
  unfold numChunks
  rw [hcs]
  have he2 : n * k + k - 1 = k * n + (k - 1) := by
    rw [Nat.mul_comm n k]; omega
  rw [he2, Nat.mul_add_div hk, Nat.div_eq_of_lt (by omega)]
  omega

/-- The loop-built weighted combination written as a `Finset` sum. -/
theorem combineWeightedProbs_eq (M : Model C Cff V H N)
    (xT : Fin T → Fin B → Fin C → ℝ) (eo : EncoderOut C B)
    (w : Fin T → Fin B → Fin N → ℝ) :
    combineWeightedProbs M xT eo w =
      fun b t v =>
        Real.log ((∑ i : Fin N, w t b i * exemplarProb M xT eo N i.val t b v) + eps) := by
  funext b t v
  unfold combineWeightedProbs
  rw [listFinRangeSum]

/-- Whenever the ensemble flag is set and similarity scores are present, the
branch chain of `forward` selects the similarity-weighted branch, regardless
of the learnable-weighting configuration. -/
theorem forwardTM_sim (M : Model C Cff V H N) (cfg : TMConfig) (fo : Bool)
    (x : Fin B → Fin T → Fin C → ℝ) (eo : EncoderOut C B) (s : Fin B → ℕ → ℝ)
    (h1 : cfg.with_TM_ensemble = true) (hs : eo.TMsSimilarity = some s) :
    forwardTM M cfg fo x eo = ensembleSimForward M x eo s := by
  simp only [forwardTM, h1, hs, Option.isSome_some, Option.get_some,
    Bool.true_eq_false, if_false, dite_true]

/-- A trivial model instance (all weights zero, all abstract sub-modules the
identity), used to evaluate the theorems on concrete inputs. -/
noncomputable def zeroModel (C Cff V H N : ℕ) : Model C Cff V H N where
  attnScore := fun _ _ => 0
  attnValue := fun _ _ => 0
  attnOutBias := fun _ => 0
  alignmentLayerNorm := fun v => v
  diverterW := fun _ _ _ => 0
  diverterB := fun _ => 0
  ffW1 := fun _ _ => 0
  ffB1 := fun _ => 0
  ffW2 := fun _ _ => 0
  ffB2 := fun _ => 0
  ffLayerNorm := fun v => v
  activation := fun r => r
  dropout := fun r => r
  activationDropout := fun r => r
  normalizeBefore := true
  outW := fun _ _ => 0
  lpFc1Wuns := fun _ _ _ => 0
  lpFc1Buns := fun _ => 0
  lpFc2Wuns := fun _ _ => 0
  lpFc2Buns := fun _ => 0
  lpAttnScore := fun _ _ => 0
  lpAttnValue := fun _ _ => 0
  lpAttnOutBias := fun _ => 0
  lpFc1Wlin := fun _ _ _ => 0
  lpFc1Blin := fun _ => 0
  lpFc2Wlin := fun _ => 0
  lpFc2Blin := 0
  lpFc1Wa2 := fun _ _ _ => 0
  lpFc1Ba2 := fun _ => 0
  lpFc2Wa2 := fun _ => 0
  lpFc2Ba2 := 0

/-- A concrete extracted-feature tensor (batch 1, one position, one channel). -/
noncomputable def xOne : Fin 1 → Fin 1 → Fin 1 → ℝ := fun _ _ _ => 0

/-- Concrete similarity scores `[0.7, 0.3]` for a single batch element. -/
noncomputable def simScores : Fin 1 → ℕ → ℝ := fun _ i => if i = 0 then 7 / 10 else 3 / 10

/-- Constant similarity scores. -/
noncomputable def simOne : Fin 1 → ℕ → ℝ := fun _ _ => 1

/-- A concrete encoder output with total exemplar length 4 (two exemplars of
length 2 once chunked with `TM_num = 2`) and similarity scores `[0.7, 0.3]`. -/
noncomputable def eoSim : EncoderOut 1 1 :=
  ⟨4, fun _ _ _ => 0, fun _ _ => false, fun _ _ => 0, some simScores⟩

/-- A concrete encoder output whose total exemplar length 5 is NOT divisible
by `TM_num = 2` yet still chunks into two (unequal) segments. -/
noncomputable def eoFive : EncoderOut 1 1 :=
  ⟨5, fun _ _ _ => 0, fun _ _ => false, fun _ _ => 0, some simOne⟩

/-- A concrete encoder output without similarity scores. -/
noncomputable def eoNoSim : EncoderOut 1 1 :=
  ⟨1, fun _ _ _ => 0, fun _ _ => false, fun _ _ => 0, none⟩

/-- Ensemble configuration without learned weighting. -/
def cfgPlain : TMConfig := ⟨true, false, none⟩

/-- Ensemble configuration WITH learned weighting enabled. -/
def cfgLearnable : TMConfig := ⟨true, true, some "attention"⟩

/-- C1: with `with_TM_ensemble = true` and similarity scores present, the
final output equals `log(Σ_i similarity_i * p_i + 1e-12)` where each `p_i` is
the independently computed per-exemplar probability tensor; the raw scores
are used without renormalization. -/
theorem claim_C1_similarity_weighted_combination (M : Model C Cff V H N)
    (cfg : TMConfig) (fo : Bool) (x : Fin B → Fin T → Fin C → ℝ)
    (eo : EncoderOut C B) (s : Fin B → ℕ → ℝ)
    (h1 : cfg.with_TM_ensemble = true) (hs : eo.TMsSimilarity = some s)
    (hch : chunksOK eo.memLen N) :
    forwardTM M cfg fo x eo =
      some (fun b t v =>
        Real.log
          ((∑ i : Fin N, s b i.val * exemplarProb M (transposeBT x) eo N i.val t b v) +
            eps)) := by
  rw [forwardTM_sim M cfg fo x eo s h1 hs]
  unfold ensembleSimForward
  rw [if_pos hch, combineWeightedProbs_eq]

/-- Witness for C1 at `TM_num = 2` with scores `[0.7, 0.3]`. -/
theorem claim_C1_witness :
    cfgPlain.with_TM_ensemble = true ∧ eoSim.TMsSimilarity = some simScores ∧
      chunksOK eoSim.memLen 2 ∧
      forwardTM (zeroModel 1 1 1 1 2) cfgPlain true xOne eoSim =
        some (fun b t v =>
          Real.log
            ((∑ i : Fin 2, simScores b i.val *
                exemplarProb (zeroModel 1 1 1 1 2) (transposeBT xOne) eoSim 2 i.val t b v) +
              eps)) :=
  ⟨rfl, rfl, by decide,
    claim_C1_similarity_weighted_combination (zeroModel 1 1 1 1 2) cfgPlain true
      xOne eoSim simScores rfl rfl (by decide)⟩

/-- C2: with `with_TM_ensemble = false`, the probability tensor computed
before the logarithm sums to 1 over the vocabulary at every
(position, batch), for valid inputs (an unmasked memory position exists and
every copied token identity is a vocabulary index). -/
theorem claim_C2_no_ensemble_mass_conservation (M : Model C Cff V H N)
    (x : Fin B → Fin T → Fin C → ℝ) (eo : EncoderOut C B) (t : Fin T) (b : Fin B)
    (hmask : ∃ j, eo.memPadMask b j = false) (hids : ∀ j, eo.TMs j b < V) :
    ∑ v, noEnsembleProbs M x eo t b v = 1 := by
  unfold noEnsembleProbs perExemplarProbs
  exact exProbs_sum_one M _ _ _ _ hmask hids

/-- Witness for C2 on a concrete one-token memory. -/
theorem claim_C2_witness :
    (∃ j, eoNoSim.memPadMask ⟨0, by decide⟩ j = false) ∧
      (∀ j, eoNoSim.TMs j ⟨0, by decide⟩ < 1) ∧
      ∑ v, noEnsembleProbs (zeroModel 1 1 1 1 1) xOne eoNoSim 0 ⟨0, by decide⟩ v = 1 :=
  ⟨⟨⟨0, by decide⟩, rfl⟩, fun _ => Nat.one_pos,
    claim_C2_no_ensemble_mass_conservation (zeroModel 1 1 1 1 1) xOne eoNoSim 0
      ⟨0, by decide⟩ ⟨⟨0, by decide⟩, rfl⟩ (fun _ => Nat.one_pos)⟩

/-- C3: the unweighted ensemble branch (no similarity scores, no learned
weights) combines the per-exemplar probability tensors by arithmetic mean
over the `TM_num` exemplars and takes `log(mean + 1e-12)` afterwards, while
every weighted branch (similarity and all four learned-weighting strategies)
combines by weighted SUM with no division — the mean appears in that one
branch only. -/
theorem claim_C3_plain_ensemble_mean (M : Model C Cff V H N)
    (x : Fin B → Fin T → Fin C → ℝ) (eo : EncoderOut C B) (s : Fin B → ℕ → ℝ)
    (hch : chunksOK eo.memLen N) :
    plainEnsembleForward M x eo =
        some (fun b t v =>
          Real.log
            ((∑ i : Fin N, exemplarProb M (transposeBT x) eo N i.val t b v) / (N : ℝ) +
              eps)) ∧
      ensembleSimForward M x eo s =
        some (fun b t v =>
          Real.log
            ((∑ i : Fin N, s b i.val * exemplarProb M (transposeBT x) eo N i.val t b v) +
              eps)) ∧
      ensembleUnscalableForward M x eo =
        some (fun b t v =>
          Real.log
            ((∑ i : Fin N, wUnscalable M (transposeBT x) eo t b i *
                exemplarProb M (transposeBT x) eo N i.val t b v) + eps)) ∧
      ensembleAttentionForward M x eo =
        some (fun b t v =>
          Real.log
            ((∑ i : Fin N, wAttention M (transposeBT x) eo t b i *
                exemplarProb M (transposeBT x) eo N i.val t b v) + eps)) ∧
      ensembleLinearForward M x eo =
        some (fun b t v =>
          Real.log
            ((∑ i : Fin N, wLinear M (transposeBT x) eo t b i *
                exemplarProb M (transposeBT x) eo N i.val t b v) + eps)) ∧
      ensembleAttention2Forward M x eo =
        some (fun b t v =>
          Real.log
            ((∑ i : Fin N, wAttention2 M (transposeBT x) eo t b i *
                exemplarProb M (transposeBT x) eo N i.val t b v) + eps)) := by
  refine ⟨?_, ?_, ?_, ?_, ?_, ?_⟩
  · unfold plainEnsembleForward
    rw [if_pos hch]
    congr 1
  · unfold ensembleSimForward
    rw [if_pos hch, combineWeightedProbs_eq]
  · unfold ensembleUnscalableForward
    rw [if_pos hch, combineWeightedProbs_eq]
  · unfold ensembleAttentionForward
    rw [if_pos hch, combineWeightedProbs_eq]
  · unfold ensembleLinearForward
    rw [if_pos hch, combineWeightedProbs_eq]
  · unfold ensembleAttention2Forward
    rw [if_pos hch, combineWeightedProbs_eq]

/-- Witness for C3 at `TM_num = 2` on a concrete input. -/
theorem claim_C3_witness :
    chunksOK eoSim.memLen 2 ∧
      (plainEnsembleForward (zeroModel 1 1 1 1 2) xOne eoSim =
          some (fun b t v =>
            Real.log
              ((∑ i : Fin 2,
                  exemplarProb (zeroModel 1 1 1 1 2) (transposeBT xOne) eoSim 2 i.val t b v) /
                  (2 : ℝ) + eps)) ∧
        ensembleSimForward (zeroModel 1 1 1 1 2) xOne eoSim simScores =
          some (fun b t v =>
            Real.log
              ((∑ i : Fin 2, simScores b i.val *
                  exemplarProb (zeroModel 1 1 1 1 2) (transposeBT xOne) eoSim 2 i.val t b v) +
                eps)) ∧
        ensembleUnscalableForward (zeroModel 1 1 1 1 2) xOne eoSim =
          some (fun b t v =>
            Real.log
              ((∑ i : Fin 2, wUnscalable (zeroModel 1 1 1 1 2) (transposeBT xOne) eoSim t b i *
                  exemplarProb (zeroModel 1 1 1 1 2) (transposeBT xOne) eoSim 2 i.val t b v) +
                eps)) ∧
        ensembleAttentionForward (zeroModel 1 1 1 1 2) xOne eoSim =
          some (fun b t v =>
            Real.log
              ((∑ i : Fin 2, wAttention (zeroModel 1 1 1 1 2) (transposeBT xOne) eoSim t b i *
                  exemplarProb (zeroModel 1 1 1 1 2) (transposeBT xOne) eoSim 2 i.val t b v) +
                eps)) ∧
        ensembleLinearForward (zeroModel 1 1 1 1 2) xOne eoSim =
          some (fun b t v =>
            Real.log
              ((∑ i : Fin 2, wLinear (zeroModel 1 1 1 1 2) (transposeBT xOne) eoSim t b i *
                  exemplarProb (zeroModel 1 1 1 1 2) (transposeBT xOne) eoSim 2 i.val t b v) +
                eps)) ∧
        ensembleAttention2Forward (zeroModel 1 1 1 1 2) xOne eoSim =
          some (fun b t v =>
            Real.log
              ((∑ i : Fin 2, wAttention2 (zeroModel 1 1 1 1 2) (transposeBT xOne) eoSim t b i *
                  exemplarProb (zeroModel 1 1 1 1 2) (transposeBT xOne) eoSim 2 i.val t b v) +
                eps))) :=
  ⟨by decide,
    claim_C3_plain_ensemble_mean (zeroModel 1 1 1 1 2) xOne eoSim simScores (by decide)⟩

/-- C4: with the ensemble flag on and similarity scores present, the
similarity-weighted strategy fires even when `with_TM_learnable_p = true` and
a learnable-weighting model is configured. -/
theorem claim_C4_similarity_overrides_learnable (M : Model C Cff V H N)
    (cfg : TMConfig) (fo : Bool) (x : Fin B → Fin T → Fin C → ℝ)
    (eo : EncoderOut C B) (s : Fin B → ℕ → ℝ)
    (h1 : cfg.with_TM_ensemble = true) (hs : eo.TMsSimilarity = some s) :
    forwardTM M cfg fo x eo = ensembleSimForward M x eo s :=
  forwardTM_sim M cfg fo x eo s h1 hs

/-- Witness for C4 with learned weighting configured and scores present. -/
theorem claim_C4_witness :
    cfgLearnable.with_TM_ensemble = true ∧ cfgLearnable.with_TM_learnable_p = true ∧
      cfgLearnable.with_TM_learnable_p_model = some "attention" ∧
      eoSim.TMsSimilarity = some simScores ∧
      forwardTM (zeroModel 1 1 1 1 2) cfgLearnable false xOne eoSim =
        ensembleSimForward (zeroModel 1 1 1 1 2) xOne eoSim simScores :=
  ⟨rfl, rfl, rfl, rfl,
    claim_C4_similarity_overrides_learnable (zeroModel 1 1 1 1 2) cfgLearnable false
      xOne eoSim simScores rfl rfl⟩

/-- C5: every learned-weighting strategy produces ensemble weights summing to
one over the `TM_num` axis at each (position, batch); the similarity-weighted
branch instead applies the raw upstream scores unchanged. -/
theorem claim_C5_learned_weights_normalized (M : Model C Cff V H N)
    (x : Fin B → Fin T → Fin C → ℝ) (eo : EncoderOut C B) (s : Fin B → ℕ → ℝ)
    (t : Fin T) (b : Fin B) (hN : 0 < N) (hch : chunksOK eo.memLen N) :
    (∑ i, wUnscalable M (transposeBT x) eo t b i = 1) ∧
      (∑ i, wAttention M (transposeBT x) eo t b i = 1) ∧
      (∑ i, wLinear M (transposeBT x) eo t b i = 1) ∧
      (∑ i, wAttention2 M (transposeBT x) eo t b i = 1) ∧
      ensembleSimForward M x eo s =
        some (fun b t v =>
          Real.log
            ((∑ i : Fin N, s b i.val * exemplarProb M (transposeBT x) eo N i.val t b v) +
              eps)) := by
  refine ⟨?_, ?_, ?_, ?_, ?_⟩
  · unfold wUnscalable; exact softmax_sum_one hN _
  · unfold wAttention; exact softmax_sum_one hN _
  · unfold wLinear; exact softmax_sum_one hN _
  · unfold wAttention2; exact softmax_sum_one hN _
  · unfold ensembleSimForward
    rw [if_pos hch, combineWeightedProbs_eq]

/-- Witness for C5 at `TM_num = 2`. -/
theorem claim_C5_witness :
    0 < 2 ∧ chunksOK eoSim.memLen 2 ∧
      ((∑ i, wUnscalable (zeroModel 1 1 1 1 2) (transposeBT xOne) eoSim 0 0 i = 1) ∧
        (∑ i, wAttention (zeroModel 1 1 1 1 2) (transposeBT xOne) eoSim 0 0 i = 1) ∧
        (∑ i, wLinear (zeroModel 1 1 1 1 2) (transposeBT xOne) eoSim 0 0 i = 1) ∧
        (∑ i, wAttention2 (zeroModel 1 1 1 1 2) (transposeBT xOne) eoSim 0 0 i = 1) ∧
        ensembleSimForward (zeroModel 1 1 1 1 2) xOne eoSim simScores =
          some (fun b t v =>
            Real.log
              ((∑ i : Fin 2, simScores b i.val *
                  exemplarProb (zeroModel 1 1 1 1 2) (transposeBT xOne) eoSim 2 i.val t b v) +
                eps))) :=
  ⟨by decide, by decide,
    claim_C5_learned_weights_normalized (zeroModel 1 1 1 1 2) xOne eoSim simScores 0 0
      (by decide) (by decide)⟩

/-- C6 (counterexample to the claim as stated): an exemplar length of 5 with
`TM_num = 2` is not evenly divisible, yet the forward call does NOT fail —
`Tensor.chunk` produces two unequal segments (3 and 2) and the computation
proceeds. -/
theorem claim_C6_counterexample :
    ¬ (2 ∣ eoFive.memLen) ∧
      (forwardTM (zeroModel 1 1 1 1 2) cfgPlain true xOne eoFive).isSome = true := by
  constructor
  · decide
  · rw [forwardTM_sim (zeroModel 1 1 1 1 2) cfgPlain true xOne eoFive simOne rfl rfl]
    unfold ensembleSimForward
    rw [if_pos (by decide)]
    rfl

/-- C6 (amended): the ensemble forward fails exactly when `Tensor.chunk`
yields fewer than `TM_num` segments (`¬ chunksOK`); an evenly divisible
positive exemplar length always yields exactly `TM_num` segments, but some
non-divisible lengths also chunk into `TM_num` (unequal) segments and then
the call proceeds instead of failing. -/
theorem claim_C6_chunk_failure_condition (M : Model C Cff V H N)
    (cfg : TMConfig) (fo : Bool) (x : Fin B → Fin T → Fin C → ℝ)
    (eo : EncoderOut C B) (s : Fin B → ℕ → ℝ)
    (h1 : cfg.with_TM_ensemble = true) (hs : eo.TMsSimilarity = some s) :
    (forwardTM M cfg fo x eo = none ↔ ¬ chunksOK eo.memLen N) ∧
      (0 < N → 0 < eo.memLen → N ∣ eo.memLen → chunksOK eo.memLen N) := by
  constructor
  · rw [forwardTM_sim M cfg fo x eo s h1 hs]
    unfold ensembleSimForward
    by_cases hc : chunksOK eo.memLen N
    · rw [if_pos hc]; simp [hc]
    · rw [if_neg hc]; simp [hc]
  · exact fun hn hL hd => chunksOK_of_dvd hn hL hd

/-- Witness for the amended C6 on the concrete length-5 input. -/
theorem claim_C6_witness :
    cfgPlain.with_TM_ensemble = true ∧ eoFive.TMsSimilarity = some simOne ∧
      ((forwardTM (zeroModel 1 1 1 1 2) cfgPlain true xOne eoFive = none ↔
          ¬ chunksOK eoFive.memLen 2) ∧
        (0 < 2 → 0 < eoFive.memLen → 2 ∣ eoFive.memLen → chunksOK eoFive.memLen 2)) :=
  ⟨rfl, rfl,
    claim_C6_chunk_failure_condition (zeroModel 1 1 1 1 2) cfgPlain true xOne eoFive
      simOne rfl rfl⟩

/-- C7: the copy-mass scatter is order-independent — permuting the exemplar
token identities together with the alignment weights leaves the scattered
probability tensor unchanged (scatter-add accumulates additively). -/
theorem claim_C7_scatter_permutation_invariant {W L : ℕ} (base : Fin W → ℝ)
    (ids : Fin L → ℕ) (copyGate : ℝ) (align : Fin L → ℝ) (σ : Equiv.Perm (Fin L)) :
    scatterAdd base (fun j => ids (σ j)) (fun j => copyGate * align (σ j)) =
      scatterAdd base ids (fun j => copyGate * align j) := by
  funext v
  unfold scatterAdd
  congr 1
  refine Finset.sum_equiv σ (fun j => ?_) (fun j _ => rfl)
  simp

/-- C8: exemplar positions flagged by the padding mask receive exactly zero
alignment weight (the mask is applied before the softmax). -/
theorem claim_C8_padding_zero_weight (M : Model C Cff V H N) {L : ℕ}
    (q : Fin C → ℝ) (mem : Fin L → Fin C → ℝ) (mask : Fin L → Bool) (j : Fin L)
    (h : mask j = true) : alignWeights M q mem mask j = 0 :=
  maskedSoftmax_eq_zero _ _ j h

/-- A one-position, one-channel zero query vector. -/
noncomputable def qZero : Fin 1 → ℝ := fun _ => 0

/-- A one-position, one-channel zero memory segment. -/
noncomputable def memZero : Fin 1 → Fin 1 → ℝ := fun _ _ => 0

/-- A padding mask marking its single position invalid. -/
def maskAll : Fin 1 → Bool := fun _ => true

/-- Witness for C8 on an all-masked one-position memory. -/
theorem claim_C8_witness :
    maskAll 0 = true ∧
      alignWeights (zeroModel 1 1 1 1 1) qZero memZero maskAll 0 = 0 :=
  ⟨rfl, claim_C8_padding_zero_weight (zeroModel 1 1 1 1 1) qZero memZero maskAll 0 rfl⟩

/-- C9: `get_normalized_probs` (and the scriptable helper) return the first
element of the network output unchanged for both values of `log_probs`; no
extra softmax or log-softmax is applied. -/
theorem claim_C9_normalized_probs_passthrough {α β γ : Type} (netOutput : α × β)
    (sample : Option γ) :
    get_normalized_probs netOutput true sample = netOutput.1 ∧
      get_normalized_probs netOutput false sample = netOutput.1 ∧
      get_normalized_probs_scriptable netOutput true sample = netOutput.1 ∧
      get_normalized_probs_scriptable netOutput false sample = netOutput.1 :=
  ⟨rfl, rfl, rfl, rfl⟩

/-- C10: the `features_only` argument of `forward` is ignored — the output
(the fused log-probability tensor) is identical whatever its value. -/
theorem claim_C10_features_only_ignored (M : Model C Cff V H N) (cfg : TMConfig)
    (x : Fin B → Fin T → Fin C → ℝ) (eo : EncoderOut C B) (fo : Bool) :
    forwardTM M cfg fo x eo = forwardTM M cfg false x eo := rfl

end TMDecoder
